import Mathlib

/-!
Verification of the perps client core (src/example/client.py): the account
codec, instruction encoder, risk engine and liquidation monitor, embedded
shallowly in Lean.  Byte buffers are lists of naturals (one entry per byte),
Python ints are `Int`/`Nat`, Python float division in the risk engine is
modelled by exact rationals, and the two fallible decoders return
`Except String`.
-/

/-- Fixed-point precision constant (PRECISION = 1_000_000_000 in client.py). -/
def PRECISION : Nat := 1000000000

/-- A byte buffer: one natural number per byte. -/
abbrev ByteBuf := List Nat

/-- A 32-byte public key, kept as its raw bytes. -/
abbrev Pubkey := List Nat

/-- The slice data[off : off+n] of a byte buffer (Python slicing semantics:
short when the buffer ends early). -/
def readBytes (data : ByteBuf) (off n : Nat) : ByteBuf :=
  (data.drop off).take n

/-- Little-endian value of a byte list (byte 0 is least significant),
as struct.unpack with format <Q / <B reads it. -/
def leNat (bs : ByteBuf) : Nat :=
  bs.foldr (fun b acc => b + 256 * acc) 0

/-- struct.unpack of format <Q (unsigned 64-bit little-endian) at an offset. -/
def unpackU64 (data : ByteBuf) (off : Nat) : Nat :=
  leNat (readBytes data off 8)

/-- struct.unpack of format <q (signed two's-complement 64-bit little-endian)
at an offset. -/
def unpackI64 (data : ByteBuf) (off : Nat) : Int :=
  let u := unpackU64 data off
  if u < 2 ^ 63 then (u : Int) else (u : Int) - 2 ^ 64

/-- struct.unpack of format <B (a single unsigned byte) at an offset. -/
def unpackU8 (data : ByteBuf) (off : Nat) : Nat :=
  leNat (readBytes data off 1)

/-- Position record (client.py lines 49-55): owner, base_amount (i64),
collateral (u64), last_funding_index (i64), entry_price (u64). -/
structure Position where
  owner : Pubkey
  base_amount : Int
  collateral : Nat
  last_funding_index : Int
  entry_price : Nat
deriving DecidableEq, Repr

/-- Position.from_bytes (client.py lines 57-69): length check, then fixed
little-endian reads at offsets 0, 32, 40, 48, 56. -/
def Position.from_bytes (data : ByteBuf) : Except String Position :=
  if data.length < 64 then .error "Invalid position data length"
  else .ok
    { owner := readBytes data 0 32
      base_amount := unpackI64 data 32
      collateral := unpackU64 data 40
      last_funding_index := unpackI64 data 48
      entry_price := unpackU64 data 56 }

/-- MarketState record (client.py lines 71-78). -/
structure MarketState where
  funding_index : Int
  funding_rate_per_slot : Int
  open_interest : Nat
  bump : Nat
  last_funding_slot : Nat
  mark_price : Nat
deriving DecidableEq, Repr

/-- MarketState.from_bytes (client.py lines 80-94): length check, then fixed
little-endian reads at offsets 0, 8, 16, 24, 25, 33. -/
def MarketState.from_bytes (data : ByteBuf) : Except String MarketState :=
  if data.length < 41 then .error "Invalid market state data length"
  else .ok
    { funding_index := unpackI64 data 0
      funding_rate_per_slot := unpackI64 data 8
      open_interest := unpackU64 data 16
      bump := unpackU8 data 24
      last_funding_slot := unpackU64 data 25
      mark_price := unpackU64 data 33 }

/-- Codomain of calculate_position_health: the Python code returns either
the float infinity or a ratio of two integers; the ratio is modelled by an
exact rational. -/
inductive Health where
  | inf : Health
  | ratio (q : ℚ) : Health
deriving DecidableEq, Repr

/-- Comparison of a health value against a rational threshold, as the Python
comparison health < 1.5 behaves (infinity is not below any threshold). -/
def Health.below (h : Health) (t : ℚ) : Bool :=
  match h with
  | .inf => false
  | .ratio q => decide (q < t)

/-- PerpetualsClient.calculate_position_health (client.py lines 313-322).
The Python // on the nonnegative operands abs(base_amount) * mark_price and
PRECISION is Nat floor division; the final float true division is modelled
by exact rational division. -/
def calculate_position_health (p : Position) (mark_price : Nat) : Health :=
  if p.base_amount = 0 then .inf
  else
    let position_value := p.base_amount.natAbs * mark_price / PRECISION
    if position_value = 0 then .inf
    else .ratio ((p.collateral : ℚ) / (position_value : ℚ))

/-- PerpetualsClient.calculate_unrealized_pnl (client.py lines 324-338).
Python // on Int operands is floor division, Int.fdiv. -/
def calculate_unrealized_pnl (p : Position) (mark_price : Int) : Int :=
  if p.base_amount = 0 then 0
  else
    let position_size : Int := p.base_amount.natAbs
    if p.base_amount > 0 then
      Int.fdiv ((mark_price - (p.entry_price : Int)) * position_size) (PRECISION : Int)
    else
      Int.fdiv (((p.entry_price : Int) - mark_price) * position_size) (PRECISION : Int)

/-- Outcome of one get_account_info call against the ledger: account bytes,
account absent, or a transport exception raised by the underlying client. -/
inductive FetchResult (α : Type) where
  | found (data : α)
  | absent
  | failure
deriving DecidableEq, Repr

/-- PerpetualsClient.get_position (client.py lines 281-295), as a function of
the fetch outcome for the derived position address.  The bare
except-Exception handler returns None both for a transport failure and for a
decode error. -/
def get_position (fetch : FetchResult ByteBuf) : Option Position :=
  match fetch with
  | .absent => none
  | .failure => none
  | .found data =>
    match Position.from_bytes data with
    | .ok p => some p
    | .error _ => none

/-- PerpetualsClient.get_market_state (client.py lines 297-311), same shape
as get_position. -/
def get_market_state (fetch : FetchResult ByteBuf) : Option MarketState :=
  match fetch with
  | .absent => none
  | .failure => none
  | .found data =>
    match MarketState.from_bytes data with
    | .ok ms => some ms
    | .error _ => none

/-- The environment a monitoring scan runs against: the (already
option-valued) results of get_market_state and of get_position per candidate
address. -/
structure MonitorEnv where
  market : Option MarketState
  positions : Pubkey → Option Position

/-- PositionMonitor.monitor_liquidations (client.py lines 418-438): early
empty return when the market state is missing, then a loop that skips
missing or flat positions and appends addresses whose health is below 1.5. -/
def monitor_liquidations (env : MonitorEnv) (user_addresses : List Pubkey) : List Pubkey :=
  match env.market with
  | none => []
  | some ms =>
    user_addresses.foldl (fun liquidatable user =>
      match env.positions user with
      | none => liquidatable
      | some p =>
        if p.base_amount = 0 then liquidatable
        else if (calculate_position_health p ms.mark_price).below (3 / 2) then
          liquidatable ++ [user]
        else liquidatable) []

/-- Instruction tag constants (client.py lines 43-46). -/
def INSTRUCTION_OPEN_POSITION : Nat := 0

def INSTRUCTION_UPDATE_FUNDING : Nat := 1

def INSTRUCTION_LIQUIDATE : Nat := 2

def INSTRUCTION_CLOSE_POSITION : Nat := 3

/-- k little-endian bytes of a natural number. -/
def toLEBytes : Nat → Nat → ByteBuf
  | _, 0 => []
  | n, k + 1 => n % 256 :: toLEBytes (n / 256) k

/-- struct.pack with format <Q: 8 little-endian bytes of an unsigned 64-bit
value; struct.pack raises struct.error outside [0, 2^64). -/
def packU64 (x : Int) : Option ByteBuf :=
  if 0 ≤ x ∧ x < 2 ^ 64 then some (toLEBytes x.toNat 8) else none

/-- struct.pack with format <q: 8 little-endian bytes of the two's-complement
encoding of a signed 64-bit value; struct.pack raises struct.error outside
[-2^63, 2^63). -/
def packI64 (x : Int) : Option ByteBuf :=
  if -(2 ^ 63) ≤ x ∧ x < 2 ^ 63 then some (toLEBytes (x % 2 ^ 64).toNat 8) else none

/-- The 25-byte OpenPosition instruction data (client.py lines 133-138):
opcode byte followed by packed base_delta, collateral_delta, entry_price.
none models a struct.error raised while packing an out-of-range value. -/
def open_position_data (base_delta collateral_delta entry_price : Int) : Option ByteBuf := do
  let b ← packI64 base_delta
  let c ← packU64 collateral_delta
  let e ← packU64 entry_price
  return INSTRUCTION_OPEN_POSITION :: (b ++ c ++ e)

/-- The 1-byte UpdateFunding instruction data (client.py line 185). -/
def update_funding_data : ByteBuf := [INSTRUCTION_UPDATE_FUNDING]

/-- The 1-byte Liquidate instruction data (client.py line 219). -/
def liquidate_data : ByteBuf := [INSTRUCTION_LIQUIDATE]

/-- The 1-byte ClosePosition instruction data (client.py line 254). -/
def close_position_data : ByteBuf := [INSTRUCTION_CLOSE_POSITION]

/-- An account reference as passed to an instruction: address plus the
signer and writable flags. -/
structure AccountMeta where
  pubkey : Pubkey
  is_signer : Bool
  is_writable : Bool
deriving DecidableEq, Repr

/-- Modelled from the spec: the external token-program address constant
imported from the SDK; an opaque 32-byte value whose bytes are irrelevant
to every claim. -/
def TOKEN_PROGRAM_ID : Pubkey := List.replicate 32 1

/-- Modelled from the spec: the external rent-sysvar address constant. -/
def SYSVAR_RENT_PUBKEY : Pubkey := List.replicate 32 2

/-- Modelled from the spec: the external clock-sysvar address constant. -/
def SYSVAR_CLOCK_PUBKEY : Pubkey := List.replicate 32 3

/-- Modelled from the spec: the external system-program address constant. -/
def SYS_PROGRAM_ID : Pubkey := List.replicate 32 4

/-- The ordered account list of the OpenPosition instruction
(client.py lines 140-150), parametrised by the payer, the user token
account and the three derived addresses. -/
def open_position_accounts (payer user_token_account vault_pda position_pda
    market_state_pda : Pubkey) : List AccountMeta :=
  [ ⟨payer, true, false⟩,
    ⟨TOKEN_PROGRAM_ID, false, false⟩,
    ⟨user_token_account, false, true⟩,
    ⟨vault_pda, false, true⟩,
    ⟨position_pda, false, true⟩,
    ⟨market_state_pda, false, true⟩,
    ⟨SYSVAR_RENT_PUBKEY, false, false⟩,
    ⟨SYSVAR_CLOCK_PUBKEY, false, false⟩,
    ⟨SYS_PROGRAM_ID, false, false⟩ ]

/-- The spec-side liquidation predicate, following the claim wording: a
candidate is reported iff its fetched position exists, has nonzero
base_amount, and has health against the shared mark price strictly below
3/2.  Compared against the loop in monitor_liquidations. -/
def liquidatableSpec (env : MonitorEnv) (ms : MarketState) (user : Pubkey) : Bool :=
  match env.positions user with
  | none => false
  | some p => decide (p.base_amount ≠ 0) && (calculate_position_health p ms.mark_price).below (3 / 2)

/-- The 25-byte buffer open_position_data produces when all three values are
in range. -/
def open_position_payload (b c e : Int) : ByteBuf :=
  INSTRUCTION_OPEN_POSITION ::
    (toLEBytes (b % 2 ^ 64).toNat 8 ++ toLEBytes c.toNat 8 ++ toLEBytes e.toNat 8)

/-- Sample market state used to instantiate universally quantified theorems:
mark price 1.0 in fixed point. -/
def sample_market : MarketState := ⟨0, 0, 0, 0, 0, 1000000000⟩

/-- Sample position with health 1.2 (collateral 1.2, value 1.0). -/
def sample_liq_position : Position := ⟨[], 1000000000, 1200000000, 0, 0⟩

/-- Sample flat position. -/
def sample_flat_position : Position := ⟨[], 0, 5000000000, 0, 0⟩

/-- Sample monitoring environment: candidate [1] holds the unhealthy
position, candidate [2] a flat one, and every other address has none. -/
def sample_env : MonitorEnv where
  market := some sample_market
  positions := fun u =>
    if u = [1] then some sample_liq_position
    else if u = [2] then some sample_flat_position
    else none

example : Position.from_bytes (List.replicate 63 0) = .error "Invalid position data length" := rfl

example :
    Position.from_bytes (List.replicate 32 7 ++ [1,0,0,0,0,0,0,0] ++ [2,0,0,0,0,0,0,0]
      ++ [255,255,255,255,255,255,255,255] ++ [0,1,0,0,0,0,0,0]) =
    .ok ⟨List.replicate 32 7, 1, 2, -1, 256⟩ := rfl

/-! ## Helper lemmas -/

lemma leNat_cons (b : Nat) (bs : ByteBuf) : leNat (b :: bs) = b + 256 * leNat bs := rfl

lemma readBytes_take (data : ByteBuf) (m off n : Nat) (h : off + n ≤ m) :
    readBytes (data.take m) off n = readBytes data off n := by
  unfold readBytes
  rw [List.drop_take, List.take_take]
  congr 1
  omega

lemma unpackU64_take (data : ByteBuf) (m off : Nat) (h : off + 8 ≤ m) :
    unpackU64 (data.take m) off = unpackU64 data off := by
  unfold unpackU64
  rw [readBytes_take data m off 8 h]

lemma unpackI64_take (data : ByteBuf) (m off : Nat) (h : off + 8 ≤ m) :
    unpackI64 (data.take m) off = unpackI64 data off := by
  unfold unpackI64
  rw [unpackU64_take data m off h]

lemma unpackU8_take (data : ByteBuf) (m off : Nat) (h : off + 1 ≤ m) :
    unpackU8 (data.take m) off = unpackU8 data off := by
  unfold unpackU8
  rw [readBytes_take data m off 1 h]

lemma toLEBytes_length (n k : Nat) : (toLEBytes n k).length = k := by
  induction k generalizing n with
  | zero => rfl
  | succ k ih => simp [toLEBytes, ih]

lemma leNat_toLEBytes (n k : Nat) : leNat (toLEBytes n k) = n % 256 ^ k := by
  induction k generalizing n with
  | zero => simp [toLEBytes, leNat, Nat.mod_one]
  | succ k ih =>
    rw [toLEBytes, leNat_cons, ih, pow_succ', Nat.mod_mul]

lemma leNat_toLEBytes8_of_lt (m : Nat) (h : m < 2 ^ 64) : leNat (toLEBytes m 8) = m := by
  rw [leNat_toLEBytes]
  exact Nat.mod_eq_of_lt (by norm_num at h ⊢; omega)

lemma readBytes_cons_succ (a : Nat) (l : ByteBuf) (off n : Nat) :
    readBytes (a :: l) (off + 1) n = readBytes l off n := rfl

lemma unpackU64_roundtrip (x : Int) (rest : ByteBuf) (h0 : 0 ≤ x) (h1 : x < 2 ^ 64) :
    (unpackU64 (toLEBytes x.toNat 8 ++ rest) 0 : Int) = x := by
  have hx : x.toNat < 2 ^ 64 := by
    have h64 : (2 : Int) ^ 64 = 18446744073709551616 := by norm_num
    rw [h64] at h1
    have : (2 : Nat) ^ 64 = 18446744073709551616 := by norm_num
    omega
  unfold unpackU64 readBytes
  rw [List.drop_zero, List.take_left' (toLEBytes_length _ 8), leNat_toLEBytes8_of_lt _ hx]
  exact Int.toNat_of_nonneg h0

lemma unpackI64_roundtrip (x : Int) (rest : ByteBuf) (h0 : -(2 ^ 63) ≤ x) (h1 : x < 2 ^ 63) :
    unpackI64 (toLEBytes (x % 2 ^ 64).toNat 8 ++ rest) 0 = x := by
  have e4 : (2 : Int) ^ 64 = 18446744073709551616 := by norm_num
  have e3 : (2 : Int) ^ 63 = 9223372036854775808 := by norm_num
  have hm0 : 0 ≤ x % 2 ^ 64 := Int.emod_nonneg x (by norm_num)
  have hm1 : x % 2 ^ 64 < 2 ^ 64 := Int.emod_lt_of_pos x (by norm_num)
  have hmn : ((x % 2 ^ 64).toNat : Int) = x % 2 ^ 64 := Int.toNat_of_nonneg hm0
  have hlt : (x % 2 ^ 64).toNat < 2 ^ 64 := by
    zify
    rw [hmn]
    push_cast
    exact hm1
  unfold unpackI64 unpackU64 readBytes
  rw [List.drop_zero, List.take_left' (toLEBytes_length _ 8), leNat_toLEBytes8_of_lt _ hlt]
  show (if (x % 2 ^ 64).toNat < 2 ^ 63 then (((x % 2 ^ 64).toNat : Nat) : Int)
      else (((x % 2 ^ 64).toNat : Nat) : Int) - 2 ^ 64) = x
  by_cases hc : (x % 2 ^ 64).toNat < 2 ^ 63
  · rw [if_pos hc, hmn]
    have hcI : x % 2 ^ 64 < 2 ^ 63 := by
      rw [← hmn]
      exact_mod_cast hc
    rw [e4] at hm0 hm1 ⊢
    rw [e3] at h0 h1 hcI
    omega
  · rw [if_neg hc, hmn]
    have hcI : 2 ^ 63 ≤ x % 2 ^ 64 := by
      rw [← hmn]
      exact_mod_cast Nat.le_of_not_lt hc
    rw [e4] at hm0 hm1 ⊢
    rw [e3] at h0 h1 hcI
    omega

lemma foldl_append_filter (f : Pubkey → Bool) (l acc : List Pubkey) :
    l.foldl (fun a u => if f u then a ++ [u] else a) acc = acc ++ l.filter f := by
  induction l generalizing acc with
  | nil => simp
  | cons x xs ih =>
    simp only [List.foldl_cons, List.filter_cons]
    by_cases h : f x
    · simp only [h, if_true, ih, List.append_assoc, List.singleton_append]
    · simp only [h, if_false, ih, Bool.false_eq_true]

lemma monitor_body_eq (env : MonitorEnv) (ms : MarketState) :
    (fun (liquidatable : List Pubkey) user =>
      match env.positions user with
      | none => liquidatable
      | some p =>
        if p.base_amount = 0 then liquidatable
        else if (calculate_position_health p ms.mark_price).below (3 / 2) then
          liquidatable ++ [user]
        else liquidatable) =
    fun a u => if liquidatableSpec env ms u then a ++ [u] else a := by
  funext a u
  unfold liquidatableSpec
  cases hpu : env.positions u with
  | none => simp
  | some p =>
    by_cases hz : p.base_amount = 0
    · simp [hz]
    · by_cases hb : (calculate_position_health p ms.mark_price).below (3 / 2)
      · simp [hz, hb]
      · simp [hz, hb]

/-! ## Claim theorems -/

/-- C1: for every buffer of length at least 64, Position.from_bytes succeeds
and returns the owner bytes 0-31 and the little-endian i64/u64/i64/u64 reads
at offsets 32, 40, 48, 56, ignoring all bytes beyond offset 64; likewise
MarketState.from_bytes on buffers of length at least 41 returns the six
little-endian reads at offsets 0, 8, 16, 24, 25, 33, ignoring trailing
bytes. -/
theorem decode_reads_fixed_offsets (pdata mdata : ByteBuf)
    (hp : 64 ≤ pdata.length) (hm : 41 ≤ mdata.length) :
    Position.from_bytes pdata = .ok
      ⟨readBytes pdata 0 32, unpackI64 pdata 32, unpackU64 pdata 40,
        unpackI64 pdata 48, unpackU64 pdata 56⟩
    ∧ Position.from_bytes pdata = Position.from_bytes (pdata.take 64)
    ∧ MarketState.from_bytes mdata = .ok
      ⟨unpackI64 mdata 0, unpackI64 mdata 8, unpackU64 mdata 16,
        unpackU8 mdata 24, unpackU64 mdata 25, unpackU64 mdata 33⟩
    ∧ MarketState.from_bytes mdata = MarketState.from_bytes (mdata.take 41) := by
  have hptake : (pdata.take 64).length = 64 := by
    rw [List.length_take]
    omega
  have hmtake : (mdata.take 41).length = 41 := by
    rw [List.length_take]
    omega
  refine ⟨?_, ?_, ?_, ?_⟩
  · unfold Position.from_bytes
    rw [if_neg (by omega)]
  · unfold Position.from_bytes
    rw [if_neg (by omega), if_neg (by omega)]
    have h1 : readBytes (pdata.take 64) 0 32 = readBytes pdata 0 32 :=
      readBytes_take pdata 64 0 32 (by omega)
    rw [h1, unpackI64_take pdata 64 32 (by omega), unpackU64_take pdata 64 40 (by omega),
      unpackI64_take pdata 64 48 (by omega), unpackU64_take pdata 64 56 (by omega)]
  · unfold MarketState.from_bytes
    rw [if_neg (by omega)]
  · unfold MarketState.from_bytes
    rw [if_neg (by omega), if_neg (by omega)]
    rw [unpackI64_take mdata 41 0 (by omega), unpackI64_take mdata 41 8 (by omega),
      unpackU64_take mdata 41 16 (by omega), unpackU8_take mdata 41 24 (by omega),
      unpackU64_take mdata 41 25 (by omega), unpackU64_take mdata 41 33 (by omega)]

/-- Witness for C1 at concrete 64- and 41-byte buffers. -/
theorem decode_reads_fixed_offsets_witness :
    64 ≤ (List.range 64).length ∧ 41 ≤ (List.range 41).length ∧
    Position.from_bytes (List.range 64) = Position.from_bytes ((List.range 64).take 64) ∧
    MarketState.from_bytes (List.range 41) = MarketState.from_bytes ((List.range 41).take 41) :=
  ⟨by decide, by decide,
    (decode_reads_fixed_offsets (List.range 64) (List.range 41) (by decide) (by decide)).2.1,
    (decode_reads_fixed_offsets (List.range 64) (List.range 41) (by decide) (by decide)).2.2.2⟩

/-- C2: for every buffer strictly shorter than 64 bytes Position.from_bytes
fails with the length-validation error, and for every buffer strictly
shorter than 41 bytes MarketState.from_bytes fails with the
length-validation error; no partially populated record is ever returned. -/
theorem decode_short_buffer_fails (pdata mdata : ByteBuf)
    (hp : pdata.length < 64) (hm : mdata.length < 41) :
    Position.from_bytes pdata = .error "Invalid position data length"
    ∧ MarketState.from_bytes mdata = .error "Invalid market state data length" := by
  constructor
  · unfold Position.from_bytes
    rw [if_pos hp]
  · unfold MarketState.from_bytes
    rw [if_pos hm]

/-- Witness for C2 at the 63- and 40-byte zero buffers. -/
theorem decode_short_buffer_fails_witness :
    (List.replicate 63 0 : ByteBuf).length < 64 ∧ (List.replicate 40 0 : ByteBuf).length < 41 ∧
    Position.from_bytes (List.replicate 63 0) = .error "Invalid position data length" ∧
    MarketState.from_bytes (List.replicate 40 0) = .error "Invalid market state data length" :=
  ⟨by decide, by decide,
    (decode_short_buffer_fails (List.replicate 63 0) (List.replicate 40 0)
      (by decide) (by decide)).1,
    (decode_short_buffer_fails (List.replicate 63 0) (List.replicate 40 0)
      (by decide) (by decide)).2⟩

/-- C3 counterexample: the claim says the division by 10^9 truncates toward
zero (Int.tdiv), but the Python // is floor division.  For the long position
with base_amount 1, entry_price 1 and mark price 0 the code returns -1 while
the truncating formula of the claim gives 0. -/
theorem pnl_truncation_counterexample :
    calculate_unrealized_pnl ⟨[], 1, 0, 0, 1⟩ 0 = -1
    ∧ Int.tdiv ((0 - ((1 : Nat) : Int)) * |(1 : Int)|) (PRECISION : Int) = 0
    ∧ calculate_unrealized_pnl ⟨[], 1, 0, 0, 1⟩ 0 ≠
        Int.tdiv ((0 - ((1 : Nat) : Int)) * |(1 : Int)|) (PRECISION : Int) := by
  refine ⟨by decide, by decide, by decide⟩

/-- C3 amended: calculate_unrealized_pnl returns 0 when base_amount = 0,
(mark - entry) * |base| divided by 10^9 for a long and (entry - mark) *
|base| divided by 10^9 for a short, where the division is floor division
(rounding toward negative infinity, Python //); the spec example evaluates
to exactly 500_000_000. -/
theorem pnl_formula (p : Position) (mark_price : Int) :
    (p.base_amount = 0 → calculate_unrealized_pnl p mark_price = 0)
    ∧ (0 < p.base_amount →
        calculate_unrealized_pnl p mark_price =
          Int.fdiv ((mark_price - (p.entry_price : Int)) * |p.base_amount|) (PRECISION : Int))
    ∧ (p.base_amount < 0 →
        calculate_unrealized_pnl p mark_price =
          Int.fdiv (((p.entry_price : Int) - mark_price) * |p.base_amount|) (PRECISION : Int))
    ∧ calculate_unrealized_pnl ⟨[], 1000000000, 0, 0, 100500000000⟩ 101000000000 = 500000000 := by
  refine ⟨?_, ?_, ?_, by decide⟩
  · intro h
    simp [calculate_unrealized_pnl, h]
  · intro h
    have hne : p.base_amount ≠ 0 := by omega
    simp only [calculate_unrealized_pnl, hne, if_false, h, if_true, Int.abs_eq_natAbs]
  · intro h
    have hne : p.base_amount ≠ 0 := by omega
    have hng : ¬ p.base_amount > 0 := by omega
    simp only [calculate_unrealized_pnl, hne, if_false, hng, Int.abs_eq_natAbs]

/-- Witness for C3 at a concrete long position. -/
theorem pnl_formula_witness :
    (0 : Int) < 2
    ∧ calculate_unrealized_pnl ⟨[], 2, 0, 0, 5⟩ 7 =
        Int.fdiv ((7 - ((5 : Nat) : Int)) * |(2 : Int)|) (PRECISION : Int) :=
  ⟨by decide, (pnl_formula ⟨[], 2, 0, 0, 5⟩ 7).2.1 (by decide)⟩

/-- C4: calculate_position_health is infinity for a flat position, infinity
when the truncated position value |base| * mark / 10^9 is zero, and
otherwise the exact ratio collateral / positionValue; it is total, so no
division-by-zero is ever raised. -/
theorem health_formula (p : Position) (mark_price : Nat) :
    (p.base_amount = 0 → calculate_position_health p mark_price = .inf)
    ∧ (p.base_amount ≠ 0 → p.base_amount.natAbs * mark_price / PRECISION = 0 →
        calculate_position_health p mark_price = .inf)
    ∧ (p.base_amount ≠ 0 → ∀ pv : Nat, pv = p.base_amount.natAbs * mark_price / PRECISION →
        pv ≠ 0 →
        calculate_position_health p mark_price = .ratio ((p.collateral : ℚ) / (pv : ℚ))) := by
  refine ⟨?_, ?_, ?_⟩
  · intro h
    simp [calculate_position_health, h]
  · intro h hz
    simp [calculate_position_health, h, hz]
  · intro h pv hpv hnz
    subst hpv
    simp [calculate_position_health, h, hnz]

/-- Witness for C4 at a concrete position with health 6/5. -/
theorem health_formula_witness :
    ((1000000000 : Int) ≠ 0)
    ∧ ((1000000000 : Nat) ≠ 0)
    ∧ calculate_position_health ⟨[], 1000000000, 1200000000, 0, 0⟩ 1000000000 =
        .ratio (((1200000000 : Nat) : ℚ) / (((1000000000 : Nat) : Nat) : ℚ)) :=
  ⟨by decide, by decide,
    (health_formula ⟨[], 1000000000, 1200000000, 0, 0⟩ 1000000000).2.2 (by decide)
      1000000000 (by decide) (by decide)⟩

/-- C5: monitor_liquidations returns the empty list when the market state
fetch yields none, and otherwise returns exactly the candidates whose
position exists, is not flat, and has health below 3/2 against the shared
mark price (as the filter by liquidatableSpec). -/
theorem monitor_selects_liquidatable (env : MonitorEnv) (cands : List Pubkey) :
    (env.market = none → monitor_liquidations env cands = [])
    ∧ (∀ ms, env.market = some ms →
        monitor_liquidations env cands = cands.filter (liquidatableSpec env ms)) := by
  constructor
  · intro h
    unfold monitor_liquidations
    rw [h]
  · intro ms h
    simp only [monitor_liquidations, h]
    rw [monitor_body_eq env ms, foldl_append_filter, List.nil_append]

/-- Witness for C5: in the sample environment, of the three candidates only
the unhealthy one is returned. -/
theorem monitor_selects_liquidatable_witness :
    sample_env.market = some sample_market
    ∧ monitor_liquidations sample_env [[1], [2], [3]] =
        ([[1], [2], [3]] : List Pubkey).filter (liquidatableSpec sample_env sample_market)
    ∧ ([[1], [2], [3]] : List Pubkey).filter (liquidatableSpec sample_env sample_market) = [[1]] :=
  ⟨rfl, (monitor_selects_liquidatable sample_env [[1], [2], [3]]).2 sample_market rfl, by
    simp only [List.filter, liquidatableSpec, sample_env, sample_market, sample_liq_position,
      sample_flat_position, calculate_position_health, Health.below, PRECISION]
    norm_num⟩

/-- C10 (implicit): the list monitor_liquidations returns is always an
order-preserving sublist of the candidate list: no address is invented,
reordered or duplicated beyond its occurrences in the input. -/
theorem monitor_output_sublist (env : MonitorEnv) (cands : List Pubkey) :
    (monitor_liquidations env cands).Sublist cands := by
  cases h : env.market with
  | none =>
    unfold monitor_liquidations
    rw [h]
    exact List.nil_sublist _
  | some ms =>
    simp only [monitor_liquidations, h]
    rw [monitor_body_eq env ms, foldl_append_filter, List.nil_append]
    exact List.filter_sublist cands

lemma unpackI64_payload (op : Nat) (l : ByteBuf) : unpackI64 (op :: l) 1 = unpackI64 l 0 := rfl

lemma unpackU64_payload9 (op : Nat) (l : ByteBuf) : unpackU64 (op :: l) 9 = unpackU64 l 8 := rfl

lemma unpackU64_payload17 (op : Nat) (l : ByteBuf) : unpackU64 (op :: l) 17 = unpackU64 l 16 := rfl

lemma unpackU64_skip (l r : ByteBuf) (off : Nat) (h : l.length = off) :
    unpackU64 (l ++ r) off = unpackU64 r 0 := by
  unfold unpackU64 readBytes
  rw [List.drop_left' h, List.drop_zero]

/-- C6: for in-range inputs the OpenPosition builder produces the 25-byte
payload opcode 0 followed by the exact little-endian encodings of
base_delta (signed), collateral_delta and entry_price (unsigned), shown by
decoding the three fields back; the account list is exactly the nine
entries in order with only the payer signing and exactly the four state
accounts writable; the other three operations produce the single-byte
payloads 1, 2 and 3. -/
theorem open_position_encoding (base_delta collateral_delta entry_price : Int)
    (hb1 : -(2 ^ 63) ≤ base_delta) (hb2 : base_delta < 2 ^ 63)
    (hc1 : 0 ≤ collateral_delta) (hc2 : collateral_delta < 2 ^ 64)
    (he1 : 0 ≤ entry_price) (he2 : entry_price < 2 ^ 64)
    (payer user_token_account vault_pda position_pda market_state_pda : Pubkey) :
    open_position_data base_delta collateral_delta entry_price =
      some (open_position_payload base_delta collateral_delta entry_price)
    ∧ (open_position_payload base_delta collateral_delta entry_price).length = 25
    ∧ (open_position_payload base_delta collateral_delta entry_price).take 1 =
        [INSTRUCTION_OPEN_POSITION]
    ∧ unpackI64 (open_position_payload base_delta collateral_delta entry_price) 1 = base_delta
    ∧ (unpackU64 (open_position_payload base_delta collateral_delta entry_price) 9 : Int) =
        collateral_delta
    ∧ (unpackU64 (open_position_payload base_delta collateral_delta entry_price) 17 : Int) =
        entry_price
    ∧ open_position_accounts payer user_token_account vault_pda position_pda market_state_pda =
        [ ⟨payer, true, false⟩,
          ⟨TOKEN_PROGRAM_ID, false, false⟩,
          ⟨user_token_account, false, true⟩,
          ⟨vault_pda, false, true⟩,
          ⟨position_pda, false, true⟩,
          ⟨market_state_pda, false, true⟩,
          ⟨SYSVAR_RENT_PUBKEY, false, false⟩,
          ⟨SYSVAR_CLOCK_PUBKEY, false, false⟩,
          ⟨SYS_PROGRAM_ID, false, false⟩ ]
    ∧ update_funding_data = [1] ∧ liquidate_data = [2] ∧ close_position_data = [3] := by
  have hB : (toLEBytes (base_delta % 2 ^ 64).toNat 8).length = 8 := toLEBytes_length _ 8
  have hC : (toLEBytes collateral_delta.toNat 8).length = 8 := toLEBytes_length _ 8
  have hBC : (toLEBytes (base_delta % 2 ^ 64).toNat 8 ++ toLEBytes collateral_delta.toNat 8).length
      = 16 := by
    rw [List.length_append, hB, hC]
  refine ⟨?_, ?_, rfl, ?_, ?_, ?_, rfl, rfl, rfl, rfl⟩
  · unfold open_position_data packI64 packU64 open_position_payload
    rw [if_pos ⟨hb1, hb2⟩, if_pos ⟨hc1, hc2⟩, if_pos ⟨he1, he2⟩]
    rfl
  · unfold open_position_payload
    simp [toLEBytes_length]
  · unfold open_position_payload
    rw [unpackI64_payload, List.append_assoc]
    exact unpackI64_roundtrip base_delta _ hb1 hb2
  · unfold open_position_payload
    rw [unpackU64_payload9, List.append_assoc, unpackU64_skip _ _ 8 hB]
    exact unpackU64_roundtrip collateral_delta (toLEBytes entry_price.toNat 8) hc1 hc2
  · unfold open_position_payload
    rw [unpackU64_payload17, unpackU64_skip _ _ 16 hBC]
    have h := unpackU64_roundtrip entry_price [] he1 he2
    rw [List.append_nil] at h
    exact h

/-- Witness for C6 at the spec example values base_delta = -5_000_000_000,
collateral_delta = 200_000_000_000, entry_price = 99_000_000_000. -/
theorem open_position_encoding_witness :
    (-(2 ^ 63) : Int) ≤ -5000000000 ∧ (-5000000000 : Int) < 2 ^ 63
    ∧ (0 : Int) ≤ 200000000000 ∧ (200000000000 : Int) < 2 ^ 64
    ∧ (0 : Int) ≤ 99000000000 ∧ (99000000000 : Int) < 2 ^ 64
    ∧ open_position_data (-5000000000) 200000000000 99000000000 =
        some (open_position_payload (-5000000000) 200000000000 99000000000)
    ∧ unpackI64 (open_position_payload (-5000000000) 200000000000 99000000000) 1 = -5000000000
    ∧ (unpackU64 (open_position_payload (-5000000000) 200000000000 99000000000) 9 : Int) =
        200000000000
    ∧ (unpackU64 (open_position_payload (-5000000000) 200000000000 99000000000) 17 : Int) =
        99000000000 :=
  ⟨by norm_num, by norm_num, by norm_num, by norm_num, by norm_num, by norm_num,
    (open_position_encoding (-5000000000) 200000000000 99000000000
      (by norm_num) (by norm_num) (by norm_num) (by norm_num) (by norm_num) (by norm_num)
      [] [] [] [] []).1,
    (open_position_encoding (-5000000000) 200000000000 99000000000
      (by norm_num) (by norm_num) (by norm_num) (by norm_num) (by norm_num) (by norm_num)
      [] [] [] [] []).2.2.2.1,
    (open_position_encoding (-5000000000) 200000000000 99000000000
      (by norm_num) (by norm_num) (by norm_num) (by norm_num) (by norm_num) (by norm_num)
      [] [] [] [] []).2.2.2.2.1,
    (open_position_encoding (-5000000000) 200000000000 99000000000
      (by norm_num) (by norm_num) (by norm_num) (by norm_num) (by norm_num) (by norm_num)
      [] [] [] [] []).2.2.2.2.2.1⟩

/-- C7 counterexample: the claim quantifies over every integer input, but
building the OpenPosition data for base_delta = 2^63 fails during
construction (struct.pack raises on an out-of-range value), before any
submission. -/
theorem instruction_build_counterexample :
    open_position_data (2 ^ 63) 0 0 = none := by decide

/-- C7 amended: for every inputs within the packable ranges (i64 for
base_delta, u64 for collateral_delta and entry_price) the construction of
the OpenPosition payload succeeds, and the other three instruction payloads
are constants, so for in-range inputs building an instruction never fails;
out-of-range integers fail already while packing. -/
theorem instruction_build_total (base_delta collateral_delta entry_price : Int)
    (hb1 : -(2 ^ 63) ≤ base_delta) (hb2 : base_delta < 2 ^ 63)
    (hc1 : 0 ≤ collateral_delta) (hc2 : collateral_delta < 2 ^ 64)
    (he1 : 0 ≤ entry_price) (he2 : entry_price < 2 ^ 64) :
    (open_position_data base_delta collateral_delta entry_price).isSome = true
    ∧ update_funding_data.length = 1 ∧ liquidate_data.length = 1
    ∧ close_position_data.length = 1 := by
  refine ⟨?_, rfl, rfl, rfl⟩
  unfold open_position_data packI64 packU64
  rw [if_pos ⟨hb1, hb2⟩, if_pos ⟨hc1, hc2⟩, if_pos ⟨he1, he2⟩]
  rfl

/-- Witness for C7 at the spec example values. -/
theorem instruction_build_total_witness :
    (-(2 ^ 63) : Int) ≤ -5000000000 ∧ (-5000000000 : Int) < 2 ^ 63
    ∧ (0 : Int) ≤ 200000000000 ∧ (200000000000 : Int) < 2 ^ 64
    ∧ (0 : Int) ≤ 99000000000 ∧ (99000000000 : Int) < 2 ^ 64
    ∧ (open_position_data (-5000000000) 200000000000 99000000000).isSome = true :=
  ⟨by norm_num, by norm_num, by norm_num, by norm_num, by norm_num, by norm_num,
    (instruction_build_total (-5000000000) 200000000000 99000000000
      (by norm_num) (by norm_num) (by norm_num) (by norm_num) (by norm_num) (by norm_num)).1⟩

/-- C8: what the code actually does at the failing input.  When the
underlying ledger client raises a transport failure, get_position and
get_market_state swallow the exception and return the absence value none --
identical to the genuinely-absent case -- instead of surfacing the failure
unchanged as the claim requires.  The absent-account half of the claim
(absence maps to none, not an error) does hold, as the first two conjuncts
show. -/
theorem fetch_swallows_transport_failure :
    get_position .absent = none ∧ get_market_state .absent = none
    ∧ get_position .failure = none ∧ get_market_state .failure = none :=
  ⟨rfl, rfl, rfl, rfl⟩
